import Mathlib

/-!
Shallow embedding of `src/jira_scraper.py` (a resilient, resumable Jira
scraper) and proofs about its retry transport, backoff policy, pagination
and checkpoint state machine, and output finalization.

Modelling conventions:
* Machine floats of `backoff_sleep` are modelled over `ℚ`; for the default
  parameters (`base = 1.0`, `cap = 60.0`) every value the Python code
  computes before jitter is a small dyadic rational, on which binary
  floating point arithmetic is exact, so the `ℚ` model is faithful.
* The nondeterministic draw `random.random()` is modelled as an explicit
  parameter `u` with `0 ≤ u < 1`.
* HTTP traffic is modelled as a finite list of per-attempt outcomes
  (one entry per `session.get` call, in order); sleeps and requests are
  recorded as an event trace.
* Field mapping, HTML stripping and date parsing are external collaborators
  excluded by the spec; records are modelled by their key and their
  sub-resource (comments) payload, which is what the claims are about.
-/

namespace JiraScraper

/-- The pre-jitter delay computed by `backoff_sleep` in the source:
`sleep = min(cap, base * (2 ** attempt))`. -/
def backoffDelay (attempt : Nat) (base cap : ℚ) : ℚ :=
  min cap (base * 2 ^ attempt)

/-- The post-jitter delay of `backoff_sleep`: the source multiplies the
exponential delay by `0.5 + random.random() * 0.5`, where `u` stands for
the value drawn by `random.random()`. -/
def backoffSleepAmount (attempt : Nat) (base cap u : ℚ) : ℚ :=
  backoffDelay attempt base cap * (1/2 + u * (1/2))

/-- One HTTP response as seen by `jira_get`. `retryAfter` models the
`Retry-After` header of a 429 response: `none` means the header is absent
(or empty, which the source treats as absent via truthiness);
`some (some n)` means present and `int(ra)` parses it as `n`;
`some none` means present but unparseable, in which case the source
falls back to a wait of 60 seconds. `jsonOk` tells whether `r.json()`
succeeds on a 200 body; `body` is the parsed JSON payload (abstract). -/
structure HttpResp where
  status : Nat
  retryAfter : Option (Option Int)
  jsonOk : Bool
  body : Nat
deriving DecidableEq, Repr

/-- Outcome of one `session.get` call: either the call raised
`requests.RequestException` (network/connection failure) or it produced
an HTTP response. -/
inductive AttemptOutcome
  | exn
  | resp (r : HttpResp)
deriving DecidableEq, Repr

/-- Observable events of the transport: an HTTP request being issued, a
call to `backoff_sleep(attempt)`, or a plain `time.sleep(seconds)` from the
`Retry-After` handling. -/
inductive JiraEvent
  | request
  | backoff (attempt : Nat)
  | sleep (seconds : Int)
deriving DecidableEq, Repr

/-- The result of `jira_get`: a parsed body, a re-raised network exception,
a re-raised JSON `ValueError`, an HTTP error from `raise_for_status()`, or
`exhausted` when the supplied finite response list runs out while the loop
would issue yet another request. -/
inductive JiraOutcome
  | success (body : Nat)
  | raiseNet
  | raiseJson
  | raiseStatus (code : Nat)
  | exhausted
deriving DecidableEq, Repr

/-- The `while True` loop body of `jira_get`, consuming one response per
iteration, with the running `attempt` counter. Mirrors the source exactly:
* network failure: if `attempt >= max_attempts` re-raise, else
  `backoff_sleep(attempt)` and retry with `attempt + 1`;
* 200 with parseable body: return it; 200 unparseable: same budget check
  as a network failure;
* 429: sleep `int(Retry-After) + 1` if the header is present (60 + 1 when
  unparseable), else `backoff_sleep(attempt)`; then `attempt += 1` and
  `raise_for_status()` when `attempt > max_attempts`;
* 500..599: if `attempt >= max_attempts` then `raise_for_status()`, else
  backoff and retry;
* remaining statuses reach the final `raise_for_status()`, which raises
  exactly for 400..599 (here only 400..499 minus 429 can remain) and is a
  no-op otherwise, after which the loop repeats without touching
  `attempt`. -/
def jiraGetAux (maxAttempts : Nat) :
    List AttemptOutcome → Nat → JiraOutcome × List JiraEvent
  | [], _ => (.exhausted, [])
  | .exn :: rest, attempt =>
    if maxAttempts ≤ attempt then (.raiseNet, [.request])
    else
      let next := jiraGetAux maxAttempts rest (attempt + 1)
      (next.1, .request :: .backoff attempt :: next.2)
  | .resp r :: rest, attempt =>
    if r.status = 200 then
      if r.jsonOk then (.success r.body, [.request])
      else if maxAttempts ≤ attempt then (.raiseJson, [.request])
      else
        let next := jiraGetAux maxAttempts rest (attempt + 1)
        (next.1, .request :: .backoff attempt :: next.2)
    else if r.status = 429 then
      let waitEv : JiraEvent :=
        match r.retryAfter with
        | some (some n) => .sleep (n + 1)
        | some none => .sleep 61
        | none => .backoff attempt
      if maxAttempts < attempt + 1 then (.raiseStatus 429, [.request, waitEv])
      else
        let next := jiraGetAux maxAttempts rest (attempt + 1)
        (next.1, .request :: waitEv :: next.2)
    else if 500 ≤ r.status ∧ r.status < 600 then
      if maxAttempts ≤ attempt then (.raiseStatus r.status, [.request])
      else
        let next := jiraGetAux maxAttempts rest (attempt + 1)
        (next.1, .request :: .backoff attempt :: next.2)
    else if 400 ≤ r.status ∧ r.status < 600 then (.raiseStatus r.status, [.request])
    else
      let next := jiraGetAux maxAttempts rest attempt
      (next.1, .request :: next.2)

/-- Entry point `jira_get(session, url, params, max_attempts)`: runs the
retry loop starting from `attempt = 0` over the given per-attempt
outcomes. -/
def jiraGet (maxAttempts : Nat) (responses : List AttemptOutcome) :
    JiraOutcome × List JiraEvent :=
  jiraGetAux maxAttempts responses 0

/-- A response outcome covered by the retry policy table: a network
failure, or a status the source classifies (200, 429, other 4xx, 5xx). -/
def coveredOutcome : AttemptOutcome → Prop
  | .exn => True
  | .resp r => r.status = 200 ∨ (400 ≤ r.status ∧ r.status < 600)

instance : DecidablePred coveredOutcome := fun o =>
  match o with
  | .exn => inferInstanceAs (Decidable True)
  | .resp _ => inferInstanceAs (Decidable (_ ∨ _))

/-- One Jira issue as the orchestrator sees it; the claims are about the
issue key, so the remaining response-shaped fields are abstracted (the spec
excludes the flat field mapping as an external collaborator). -/
structure Issue where
  key : String
deriving DecidableEq, Repr

/-- One page returned by the search endpoint: `data.get("issues", [])` and
`data.get("total", None)`. -/
structure Page where
  issues : List Issue
  total : Option Nat
deriving DecidableEq, Repr

/-- The remote API: `search n` is the page returned for `startAt = n`, and
`comments k` is the outcome of `fetch_comments` for issue key `k` — `none`
means the fetch raised (after its own retries), the case the orchestrator
catches and degrades on. -/
structure Remote where
  search : Nat → Page
  comments : String → Option (List String)

/-- In-memory scan state of `scrape_project`: `startAt`, the processed-keys
set (modelled as a list, queried by membership), and the captured `total`. -/
structure ScrapeState where
  startAt : Nat
  processed : List String
  total : Option Nat
deriving DecidableEq, Repr

/-- Observable events of one scan, in program order. -/
inductive Event
  | fetchPage (startAt : Nat)
  | fetchComments (key : String)
  | warn (key : String)
  | append (key : String) (comments : List String)
  | saveCheckpoint (startAt : Nat) (processed : List String)
  | politeSleep
  | finalizeOut
deriving DecidableEq, Repr

/-- The `for issue in issues` loop of `scrape_project`: a key already in
`processed` is skipped (no comment fetch, no append); otherwise the
comments are fetched (a failure is caught, warned about, and degraded to
`[]`), the record is appended and flushed, and the key is added to
`processed`. Returns the updated processed set and the emitted events. -/
def processItems (rm : Remote) : List Issue → List String → List String × List Event
  | [], processed => (processed, [])
  | issue :: rest, processed =>
    if issue.key ∈ processed then processItems rm rest processed
    else
      let fetched : List Event × List String :=
        match rm.comments issue.key with
        | some cs => ([.fetchComments issue.key], cs)
        | none => ([.fetchComments issue.key, .warn issue.key], [])
      let next := processItems rm rest (issue.key :: processed)
      (next.1, fetched.1 ++ .append issue.key fetched.2 :: next.2)

/-- One iteration of the `while True` loop of `scrape_project`: fetch the
page at the current offset, capture `total` while it is still unknown,
stop on an empty page, otherwise process the items, advance `startAt` by
the number of items returned, save the checkpoint once, and either stop
(`total` known and reached) or sleep politely and continue. The `Bool` is
true when the loop breaks. -/
def stepPage (rm : Remote) (s : ScrapeState) : List Event × Bool × ScrapeState :=
  let page := rm.search s.startAt
  let totalNow := if s.total.isSome then s.total else page.total
  if page.issues.isEmpty then
    ([.fetchPage s.startAt], true, { s with total := totalNow })
  else
    let pe := processItems rm page.issues s.processed
    let startAtNew := s.startAt + page.issues.length
    let sNew : ScrapeState := ⟨startAtNew, pe.1, totalNow⟩
    let evsAll := Event.fetchPage s.startAt ::
      pe.2 ++ [Event.saveCheckpoint startAtNew pe.1]
    match totalNow with
    | some t =>
      if t ≤ startAtNew then (evsAll, true, sNew)
      else (evsAll ++ [Event.politeSleep], false, sNew)
    | none => (evsAll ++ [Event.politeSleep], false, sNew)

/-- The events of one non-empty-page iteration before the optional polite
sleep: the page fetch, the item events, and the single checkpoint save. -/
def pageEvents (rm : Remote) (s : ScrapeState) : List Event :=
  Event.fetchPage s.startAt ::
    (processItems rm (rm.search s.startAt).issues s.processed).2 ++
    [Event.saveCheckpoint (s.startAt + (rm.search s.startAt).issues.length)
      (processItems rm (rm.search s.startAt).issues s.processed).1]

/-- The scan loop, driven by fuel (the Python loop has no fuel; fuel
exhaustion models a run still in progress, distinguished by the `false`
flag, and is never confused with the stop conditions of the loop). -/
def scrapeLoop (rm : Remote) : Nat → ScrapeState → List Event × Bool × ScrapeState
  | 0, s => ([], false, s)
  | fuel + 1, s =>
    let st := stepPage rm s
    if st.2.1 then (st.1, true, st.2.2)
    else
      let rest := scrapeLoop rm fuel st.2.2
      (st.1 ++ rest.1, rest.2.1, rest.2.2)

/-- Entry point `scrape_project` from a loaded checkpoint
`(startAt, processed)`: run the loop; only when it breaks (reaches STOP) do
the close and the final renames run, recorded as `finalizeOut`. -/
def scrapeProject (rm : Remote) (fuel : Nat) (startAt0 : Nat)
    (processed0 : List String) : List Event × Bool × ScrapeState :=
  let run := scrapeLoop rm fuel ⟨startAt0, processed0, none⟩
  if run.2.1 then (run.1 ++ [.finalizeOut], true, run.2.2)
  else (run.1, false, run.2.2)

/-- The keys of records appended to the sink in an event trace, in order. -/
def appendedKeys : List Event → List String
  | [] => []
  | .append k _ :: rest => k :: appendedKeys rest
  | _ :: rest => appendedKeys rest

/-- Checks that every checkpoint saved in the trace only claims keys whose
record was already appended earlier in the trace or was written by a prior
run (`written` starts as the loaded processed set). -/
def checkpointsCovered (written : List String) : List Event → Bool
  | [] => true
  | .append k _ :: rest => checkpointsCovered (k :: written) rest
  | .saveCheckpoint _ ps :: rest =>
    ps.all (fun k => k ∈ written) && checkpointsCovered written rest
  | _ :: rest => checkpointsCovered written rest

/-- Folds the keys appended in a trace onto an initial written set, in trace
order: the set of record keys durably in the working file after the trace. -/
def writtenPlus (written : List String) : List Event → List String
  | [] => written
  | .append k _ :: rest => writtenPlus (k :: written) rest
  | _ :: rest => writtenPlus written rest

/-- True exactly on checkpoint-save events. -/
def isSave : Event → Bool
  | .saveCheckpoint _ _ => true
  | _ => false

/-- A concrete remote realizing the scenario of the spec: a single page
`[A, B, C]` with `total = 3`, where the comments fetch fails for `B` and
succeeds with one comment elsewhere. -/
def remoteABC : Remote :=
  { search := fun n => if n = 0 then ⟨[⟨"A"⟩, ⟨"B"⟩, ⟨"C"⟩], some 3⟩ else ⟨[], some 3⟩
    comments := fun k => if k = "B" then none else some ["first comment"] }

/-- A concrete remote whose search endpoint always returns an empty page
while still reporting a positive total. -/
def remoteEmpty : Remote :=
  { search := fun _ => ⟨[], some 5⟩
    comments := fun _ => some [] }

/-- A filesystem as a partial map from paths to file identities; `os.replace`
atomically renames `src` over `dst`. -/
def osReplace (fs : String → Option Nat) (src dst : String) : String → Option Nat :=
  fun p => if p = dst then fs src else if p = src then none else fs p

/-- The finalization tail of `scrape_project`: if a file exists at
`out_path` it is renamed to `out_path + ".bak"`, then the working file
`out_path + ".tmp"` is renamed to `out_path`. -/
def finalizeOutput (fs : String → Option Nat) (outPath : String) : String → Option Nat :=
  let afterBak := if (fs outPath).isSome then osReplace fs outPath (outPath ++ ".bak") else fs
  osReplace afterBak (outPath ++ ".tmp") outPath

/-- A concrete filesystem with a pre-existing final output and a working
file, used to evaluate the finalization theorem. -/
def fsDemo : String → Option Nat :=
  fun p => if p = "out.jsonl" then some 1
           else if p = "out.jsonl.tmp" then some 2 else none

lemma backoffDelay_default (k : Nat) : backoffDelay k 1 60 = min 60 (2 ^ k) := by
  simp [backoffDelay]

/-- C6: for every attempt index `k ≥ 0` the pre-jitter backoff delay equals
`min(cap, base * 2^k)` (defaults `base = 1`, `cap = 60`), strictly
increasing in `k` until the cap is reached and constant afterwards, and the
jitter multiplies this delay by `0.5 + u * 0.5 ∈ [0.5, 1]` for the drawn
`u ∈ [0, 1)`. -/
theorem backoff_formula (k : Nat) (u : ℚ) (h0 : 0 ≤ u) (h1 : u < 1) :
    backoffDelay k 1 60 = min 60 (2 ^ k) ∧
    (backoffDelay k 1 60 < 60 → backoffDelay k 1 60 < backoffDelay (k + 1) 1 60) ∧
    (backoffDelay k 1 60 = 60 → backoffDelay (k + 1) 1 60 = 60) ∧
    backoffSleepAmount k 1 60 u = backoffDelay k 1 60 * (1/2 + u * (1/2)) ∧
    1/2 ≤ 1/2 + u * (1/2) ∧ 1/2 + u * (1/2) ≤ 1 := by
  have hpow : (0:ℚ) < 2 ^ k := pow_pos (by norm_num) k
  refine ⟨backoffDelay_default k, ?_, ?_, rfl, by linarith, by linarith⟩
  · intro h
    rw [backoffDelay_default] at h ⊢
    rw [backoffDelay_default]
    have hk : (2:ℚ) ^ k < 60 := by
      rcases lt_or_le ((2:ℚ) ^ k) 60 with h2 | h2
      · exact h2
      · rw [min_eq_left h2] at h
        exact absurd h (lt_irrefl _)
    rw [min_eq_right hk.le]
    refine lt_min hk ?_
    rw [pow_succ]
    nlinarith
  · intro h
    rw [backoffDelay_default] at h
    rw [backoffDelay_default]
    have hk : (60:ℚ) ≤ 2 ^ k := min_eq_left_iff.mp h
    refine min_eq_left ?_
    rw [pow_succ]
    nlinarith

/-- C6 witness at `k = 3`, `u = 1/3`. -/
theorem backoff_formula_witness :
    backoffDelay 3 1 60 = min 60 (2 ^ 3) ∧
    (backoffDelay 3 1 60 < 60 → backoffDelay 3 1 60 < backoffDelay 4 1 60) ∧
    (backoffDelay 3 1 60 = 60 → backoffDelay 4 1 60 = 60) ∧
    backoffSleepAmount 3 1 60 (1/3) = backoffDelay 3 1 60 * (1/2 + (1/3) * (1/2)) ∧
    1/2 ≤ 1/2 + (1/3 : ℚ) * (1/2) ∧ 1/2 + (1/3 : ℚ) * (1/2) ≤ 1 :=
  backoff_formula 3 (1/3) (by norm_num) (by norm_num)

/-- C5: a response with a 4xx status other than 429 makes `jira_get` fail
at once with that HTTP error: exactly one request is issued, no backoff or
sleep event occurs, and the remaining responses are never consumed. -/
theorem clientError_immediate (maxAttempts : Nat) (r : HttpResp)
    (rest : List AttemptOutcome) (h4 : 400 ≤ r.status) (h5 : r.status < 500)
    (h429 : r.status ≠ 429) :
    jiraGet maxAttempts (.resp r :: rest) = (.raiseStatus r.status, [.request]) := by
  have h200 : ¬ r.status = 200 := by omega
  have hn5 : ¬ 500 ≤ r.status := by omega
  have h46 : r.status < 600 := by omega
  simp [jiraGet, jiraGetAux, h200, h429, h4, hn5, h46]

/-- C5 witness: a 404 answered on the first attempt surfaces immediately
even though a successful response is queued behind it. -/
theorem clientError_immediate_witness :
    jiraGet 6 [.resp ⟨404, none, true, 0⟩, .resp ⟨200, none, true, 7⟩] =
      (.raiseStatus 404, [.request]) :=
  clientError_immediate 6 ⟨404, none, true, 0⟩ [.resp ⟨200, none, true, 7⟩]
    (by decide) (by decide) (by decide)

lemma count_request_cons_backoff (a : Nat) (l : List JiraEvent) :
    (JiraEvent.request :: .backoff a :: l).count .request = l.count .request + 1 := by
  simp [List.count_cons]

lemma count_request_cons_sleep (n : Int) (l : List JiraEvent) :
    (JiraEvent.request :: .sleep n :: l).count .request = l.count .request + 1 := by
  simp [List.count_cons]

lemma jiraGetAux_429_budget (maxAttempts : Nat) (r : HttpResp) (hs : r.status = 429) :
    ∀ k a, a + k = maxAttempts →
      (jiraGetAux maxAttempts (List.replicate (k + 1) (.resp r)) a).1 = .raiseStatus 429 := by
  intro k
  induction k with
  | zero =>
    intro a ha
    have hlt : maxAttempts < a + 1 := by omega
    show (jiraGetAux maxAttempts (.resp r :: List.replicate 0 (.resp r)) a).1 = _
    rcases hh : r.retryAfter with _ | ra
    · simp [jiraGetAux, hs, hlt, hh]
    · rcases ra with _ | n <;> simp [jiraGetAux, hs, hlt, hh]
  | succ k ih =>
    intro a ha
    have hlt : ¬ (maxAttempts < a + 1) := by omega
    have hrec := ih (a + 1) (by omega)
    show (jiraGetAux maxAttempts (.resp r :: List.replicate (k + 1) (.resp r)) a).1 = _
    rcases hh : r.retryAfter with _ | ra
    · simpa [jiraGetAux, hs, hlt, hh] using hrec
    · rcases ra with _ | n <;> simpa [jiraGetAux, hs, hlt, hh] using hrec

/-- C7: on a 429 response carrying a parseable `Retry-After: n` header the
transport sleeps `n + 1` seconds and retries with the attempt counter
incremented; with the header absent it applies the computed backoff for the
current attempt index instead; and the attempt budget is still enforced (a
stream of such 429 responses is raised after the budget is exhausted). -/
theorem retry_after_honored (maxAttempts : Nat) (n : Int) (r : HttpResp)
    (rest : List AttemptOutcome) (hs : r.status = 429)
    (hra : r.retryAfter = some (some n)) (hm : 1 ≤ maxAttempts) :
    jiraGet maxAttempts (.resp r :: rest) =
      ((jiraGetAux maxAttempts rest 1).1,
        .request :: .sleep (n + 1) :: (jiraGetAux maxAttempts rest 1).2) ∧
    (∀ r2 : HttpResp, r2.status = 429 → r2.retryAfter = none →
      jiraGet maxAttempts (.resp r2 :: rest) =
        ((jiraGetAux maxAttempts rest 1).1,
          .request :: .backoff 0 :: (jiraGetAux maxAttempts rest 1).2)) ∧
    (jiraGetAux maxAttempts (List.replicate (maxAttempts + 1) (.resp r)) 0).1 =
      .raiseStatus 429 := by
  have hlt : ¬ (maxAttempts < 0 + 1) := by omega
  refine ⟨?_, ?_, jiraGetAux_429_budget maxAttempts r hs maxAttempts 0 (by omega)⟩
  · simp [jiraGet, jiraGetAux, hs, hra, hlt]
  · intro r2 hs2 hra2
    simp [jiraGet, jiraGetAux, hs2, hra2, hlt]

/-- C7 witness: `Retry-After: 5` produces a wait of 6 seconds before the
second (successful) attempt. -/
theorem retry_after_honored_witness :
    jiraGet 6 [.resp ⟨429, some (some 5), true, 0⟩, .resp ⟨200, none, true, 7⟩] =
      (.success 7, [.request, .sleep 6, .request]) :=
  ((retry_after_honored 6 5 ⟨429, some (some 5), true, 0⟩
      [.resp ⟨200, none, true, 7⟩] rfl rfl (by norm_num)).1).trans (by decide)

/-- C4 counterexample: `jira_get` is not bounded by the attempt budget on
every response stream. A status the policy table does not cover (such as
204: not 200, not 429, not 4xx, not 5xx) reaches the final
`raise_for_status()`, which is a no-op below 400, and the loop re-requests
without incrementing `attempt`: eight straight 204 responses are all
consumed by eight requests under `max_attempts = 6` with no parsed body
and no raised error. -/
theorem jiraGet_not_bounded_by_budget :
    (jiraGet 6 (List.replicate 8 (.resp ⟨204, none, true, 0⟩))).1 = .exhausted ∧
    (jiraGet 6 (List.replicate 8 (.resp ⟨204, none, true, 0⟩))).2.count .request = 8 ∧
    6 + 1 < 8 := by decide

lemma jiraGetAux_covered_budget (maxAttempts : Nat) :
    ∀ (resps : List AttemptOutcome) (a : Nat),
      (∀ o ∈ resps, coveredOutcome o) →
      (jiraGetAux maxAttempts resps a).2.count .request ≤ (maxAttempts - a) + 1 ∧
      ((maxAttempts - a) + 1 ≤ resps.length →
        (jiraGetAux maxAttempts resps a).1 ≠ .exhausted) := by
  intro resps
  induction resps with
  | nil =>
    intro a h
    refine ⟨by simp [jiraGetAux], ?_⟩
    intro hlen
    simp at hlen
  | cons o rest ih =>
    intro a h
    have ho : coveredOutcome o := h o (List.mem_cons_self o rest)
    have hrest : ∀ x ∈ rest, coveredOutcome x :=
      fun x hx => h x (List.mem_cons_of_mem o hx)
    match o with
    | .exn =>
      by_cases hma : maxAttempts ≤ a
      · constructor
        · have h2 : (jiraGetAux maxAttempts (.exn :: rest) a).2 = [.request] := by
            simp [jiraGetAux, hma]
          rw [h2]
          simp [List.count_cons]
        · intro _
          have h1 : (jiraGetAux maxAttempts (.exn :: rest) a).1 = .raiseNet := by
            simp [jiraGetAux, hma]
          rw [h1]
          simp
      · obtain ⟨hc, he⟩ := ih (a + 1) hrest
        constructor
        · have h2 : (jiraGetAux maxAttempts (.exn :: rest) a).2 =
              .request :: .backoff a :: (jiraGetAux maxAttempts rest (a + 1)).2 := by
            simp [jiraGetAux, hma]
          rw [h2, count_request_cons_backoff]
          omega
        · intro hlen
          have h1 : (jiraGetAux maxAttempts (.exn :: rest) a).1 =
              (jiraGetAux maxAttempts rest (a + 1)).1 := by
            simp [jiraGetAux, hma]
          rw [h1]
          refine he ?_
          simp only [List.length_cons] at hlen
          omega
    | .resp r =>
      rcases ho with h200 | h46
      · by_cases hok : r.jsonOk
        · constructor
          · have h2 : (jiraGetAux maxAttempts (.resp r :: rest) a).2 = [.request] := by
              simp [jiraGetAux, h200, hok]
            rw [h2]
            simp [List.count_cons]
          · intro _
            have h1 : (jiraGetAux maxAttempts (.resp r :: rest) a).1 = .success r.body := by
              simp [jiraGetAux, h200, hok]
            rw [h1]
            simp
        · by_cases hma : maxAttempts ≤ a
          · constructor
            · have h2 : (jiraGetAux maxAttempts (.resp r :: rest) a).2 = [.request] := by
                simp [jiraGetAux, h200, hok, hma]
              rw [h2]
              simp [List.count_cons]
            · intro _
              have h1 : (jiraGetAux maxAttempts (.resp r :: rest) a).1 = .raiseJson := by
                simp [jiraGetAux, h200, hok, hma]
              rw [h1]
              simp
          · obtain ⟨hc, he⟩ := ih (a + 1) hrest
            constructor
            · have h2 : (jiraGetAux maxAttempts (.resp r :: rest) a).2 =
                  .request :: .backoff a :: (jiraGetAux maxAttempts rest (a + 1)).2 := by
                simp [jiraGetAux, h200, hok, hma]
              rw [h2, count_request_cons_backoff]
              omega
            · intro hlen
              have h1 : (jiraGetAux maxAttempts (.resp r :: rest) a).1 =
                  (jiraGetAux maxAttempts rest (a + 1)).1 := by
                simp [jiraGetAux, h200, hok, hma]
              rw [h1]
              refine he ?_
              simp only [List.length_cons] at hlen
              omega
      · have h200 : ¬ r.status = 200 := by omega
        by_cases h429 : r.status = 429
        · by_cases hma : maxAttempts < a + 1
          · constructor
            · have h2 : ∃ w, (jiraGetAux maxAttempts (.resp r :: rest) a).2 = [.request, w] ∧
                  w ≠ .request := by
                rcases hh : r.retryAfter with _ | ra
                · exact ⟨.backoff a, by simp [jiraGetAux, h200, h429, hma, hh], by simp⟩
                · rcases ra with _ | n
                  · exact ⟨.sleep 61, by simp [jiraGetAux, h200, h429, hma, hh], by simp⟩
                  · exact ⟨.sleep (n + 1), by simp [jiraGetAux, h200, h429, hma, hh], by simp⟩
              obtain ⟨w, hw, hwne⟩ := h2
              rw [hw, List.count_cons_self,
                List.count_cons_of_ne (by exact fun hcon => hwne hcon.symm)]
              simp
            · intro _
              have h1 : (jiraGetAux maxAttempts (.resp r :: rest) a).1 = .raiseStatus 429 := by
                rcases hh : r.retryAfter with _ | ra
                · simp [jiraGetAux, h200, h429, hma, hh]
                · rcases ra with _ | n <;> simp [jiraGetAux, h200, h429, hma, hh]
              rw [h1]
              simp
          · obtain ⟨hc, he⟩ := ih (a + 1) hrest
            have h2 : ∃ w, (jiraGetAux maxAttempts (.resp r :: rest) a).2 =
                .request :: w :: (jiraGetAux maxAttempts rest (a + 1)).2 ∧ w ≠ .request := by
              rcases hh : r.retryAfter with _ | ra
              · exact ⟨.backoff a, by simp [jiraGetAux, h200, h429, hma, hh], by simp⟩
              · rcases ra with _ | n
                · exact ⟨.sleep 61, by simp [jiraGetAux, h200, h429, hma, hh], by simp⟩
                · exact ⟨.sleep (n + 1), by simp [jiraGetAux, h200, h429, hma, hh], by simp⟩
            have h1 : (jiraGetAux maxAttempts (.resp r :: rest) a).1 =
                (jiraGetAux maxAttempts rest (a + 1)).1 := by
              rcases hh : r.retryAfter with _ | ra
              · simp [jiraGetAux, h200, h429, hma, hh]
              · rcases ra with _ | n <;> simp [jiraGetAux, h200, h429, hma, hh]
            obtain ⟨w, hw, hwne⟩ := h2
            constructor
            · rw [hw, List.count_cons_self, List.count_cons_of_ne
                (by exact fun hcon => hwne hcon.symm)]
              omega
            · intro hlen
              rw [h1]
              refine he ?_
              simp only [List.length_cons] at hlen
              omega
        · by_cases h5 : 500 ≤ r.status
          · have h56 : 500 ≤ r.status ∧ r.status < 600 := by omega
            by_cases hma : maxAttempts ≤ a
            · constructor
              · have h2 : (jiraGetAux maxAttempts (.resp r :: rest) a).2 = [.request] := by
                  simp [jiraGetAux, h200, h429, h56.1, h56.2, hma]
                rw [h2]
                simp [List.count_cons]
              · intro _
                have h1 : (jiraGetAux maxAttempts (.resp r :: rest) a).1 =
                    .raiseStatus r.status := by
                  simp [jiraGetAux, h200, h429, h56.1, h56.2, hma]
                rw [h1]
                simp
            · obtain ⟨hc, he⟩ := ih (a + 1) hrest
              constructor
              · have h2 : (jiraGetAux maxAttempts (.resp r :: rest) a).2 =
                    .request :: .backoff a :: (jiraGetAux maxAttempts rest (a + 1)).2 := by
                  simp [jiraGetAux, h200, h429, h56.1, h56.2, hma]
                rw [h2, count_request_cons_backoff]
                omega
              · intro hlen
                have h1 : (jiraGetAux maxAttempts (.resp r :: rest) a).1 =
                    (jiraGetAux maxAttempts rest (a + 1)).1 := by
                  simp [jiraGetAux, h200, h429, h56.1, h56.2, hma]
                rw [h1]
                refine he ?_
                simp only [List.length_cons] at hlen
                omega
          · have h4a : 400 ≤ r.status := h46.1
            have h4b : r.status < 600 := h46.2
            have hn5 : ¬ 500 ≤ r.status := h5
            constructor
            · have h2 : (jiraGetAux maxAttempts (.resp r :: rest) a).2 = [.request] := by
                simp [jiraGetAux, h200, h429, hn5, h4a, h4b]
              rw [h2]
              simp [List.count_cons]
            · intro _
              have h1 : (jiraGetAux maxAttempts (.resp r :: rest) a).1 =
                  .raiseStatus r.status := by
                simp [jiraGetAux, h200, h429, hn5, h4a, h4b]
              rw [h1]
              simp

/-- C4 as amended: each covered retryable condition (network failure,
unparseable 200 body, 429, 5xx) is retried only within the attempt budget:
whenever every response in the stream is covered by the policy table
(network failure, or status 200, 429, 4xx or 5xx), `jira_get` issues at
most `max_attempts + 1` requests and — given at least that many responses
available — never runs off the end of the stream, i.e. it terminates with
a parsed body or an error; and the attempt counter starts at zero for
each logical request. For uncovered statuses the original claim fails, see
the counterexample. -/
theorem jiraGet_budget_for_covered (maxAttempts : Nat)
    (resps : List AttemptOutcome) (h : ∀ o ∈ resps, coveredOutcome o) :
    (jiraGet maxAttempts resps).2.count .request ≤ maxAttempts + 1 ∧
    (maxAttempts + 1 ≤ resps.length → (jiraGet maxAttempts resps).1 ≠ .exhausted) ∧
    jiraGet maxAttempts resps = jiraGetAux maxAttempts resps 0 := by
  have hr := jiraGetAux_covered_budget maxAttempts resps 0 h
  exact ⟨by simpa [jiraGet] using hr.1, by simpa [jiraGet] using hr.2, rfl⟩

/-- C4 witness: nine straight network failures under the default budget of
six stop after seven requests with the network error re-raised. -/
theorem jiraGet_budget_for_covered_witness :
    ((jiraGet 6 (List.replicate 9 .exn)).2.count .request ≤ 6 + 1 ∧
      (6 + 1 ≤ (List.replicate 9 (AttemptOutcome.exn)).length →
        (jiraGet 6 (List.replicate 9 .exn)).1 ≠ .exhausted) ∧
      jiraGet 6 (List.replicate 9 .exn) = jiraGetAux 6 (List.replicate 9 .exn) 0) ∧
    (jiraGet 6 (List.replicate 9 .exn)).1 = .raiseNet :=
  ⟨jiraGet_budget_for_covered 6 (List.replicate 9 .exn) (by decide), by decide⟩

/-- C1: when the search endpoint returns a page with an empty item list,
the scan stops at once: the whole remaining trace is that single page
fetch — no item is processed, no checkpoint is saved, no further page is
fetched — regardless of the captured or reported total. -/
theorem empty_page_stops (rm : Remote) (s : ScrapeState) (fuel : Nat)
    (h : (rm.search s.startAt).issues = []) :
    scrapeLoop rm (fuel + 1) s =
      ([.fetchPage s.startAt], true,
        { s with total := if s.total.isSome then s.total else (rm.search s.startAt).total }) := by
  simp [scrapeLoop, stepPage, h]

/-- C1 witness: an empty first page with reported `total = 5` still stops
the scan immediately. -/
theorem empty_page_stops_witness :
    scrapeLoop remoteEmpty 4 ⟨0, [], none⟩ =
      ([.fetchPage 0], true, ⟨0, [], some 5⟩) := by
  simpa using empty_page_stops remoteEmpty ⟨0, [], none⟩ 3 rfl

lemma processItems_mono (rm : Remote) :
    ∀ (issues : List Issue) (processed : List String) (k : String),
      k ∈ processed → k ∈ (processItems rm issues processed).1 := by
  intro issues
  induction issues with
  | nil =>
    intro p k h
    simpa [processItems] using h
  | cons i rest ih =>
    intro p k h
    by_cases hi : i.key ∈ p
    · simpa [processItems, hi] using ih p k h
    · simp only [processItems, if_neg hi]
      exact ih (i.key :: p) k (List.mem_cons_of_mem _ h)

lemma processItems_skip (rm : Remote) :
    ∀ (issues : List Issue) (processed : List String) (k : String),
      k ∈ processed →
      (∀ cs, Event.append k cs ∉ (processItems rm issues processed).2) ∧
      Event.fetchComments k ∉ (processItems rm issues processed).2 := by
  intro issues
  induction issues with
  | nil =>
    intro p k h
    simp [processItems]
  | cons i rest ih =>
    intro p k h
    by_cases hi : i.key ∈ p
    · simpa [processItems, hi] using ih p k h
    · have hne : k ≠ i.key := fun hc => hi (hc ▸ h)
      have hr := ih (i.key :: p) k (List.mem_cons_of_mem _ h)
      constructor
      · intro cs
        rcases hcm : rm.comments i.key with _ | cs2 <;>
          simp [processItems, hi, hcm, hne, hr.1 cs]
      · rcases hcm : rm.comments i.key with _ | cs2 <;>
          simp [processItems, hi, hcm, hne, hr.2]

lemma processItems_no_save (rm : Remote) :
    ∀ (issues : List Issue) (processed : List String),
      (processItems rm issues processed).2.filter isSave = [] := by
  intro issues
  induction issues with
  | nil =>
    intro p
    simp [processItems]
  | cons i rest ih =>
    intro p
    by_cases hi : i.key ∈ p
    · simp [processItems, hi, ih p]
    · rcases hcm : rm.comments i.key with _ | cs <;>
        simp [processItems, hi, hcm, isSave, ih (i.key :: p)]

lemma processItems_comments_irrel (rm rm2 : Remote) :
    ∀ (issues : List Issue) (processed : List String),
      (processItems rm2 issues processed).1 = (processItems rm issues processed).1 ∧
      appendedKeys (processItems rm2 issues processed).2 =
        appendedKeys (processItems rm issues processed).2 := by
  intro issues
  induction issues with
  | nil =>
    intro p
    simp [processItems]
  | cons i rest ih =>
    intro p
    by_cases hi : i.key ∈ p
    · simpa [processItems, hi] using ih p
    · have hr := ih (i.key :: p)
      rcases hcm : rm.comments i.key with _ | cs <;>
        rcases hcm2 : rm2.comments i.key with _ | cs2 <;>
          simp [processItems, hi, hcm, hcm2, appendedKeys, hr.1, hr.2]

lemma processItems_failed_append (rm : Remote) :
    ∀ (issues : List Issue) (processed : List String) (k : String),
      (⟨k⟩ : Issue) ∈ issues → k ∉ processed → rm.comments k = none →
      Event.append k [] ∈ (processItems rm issues processed).2 ∧
      Event.warn k ∈ (processItems rm issues processed).2 := by
  intro issues
  induction issues with
  | nil =>
    intro p k hmem
    simp at hmem
  | cons i rest ih =>
    intro p k hmem hp hcm
    by_cases hi : i.key ∈ p
    · rcases List.mem_cons.mp hmem with hc | hc
      · exfalso
        apply hp
        have : i.key = k := by rw [← hc]
        rw [← this]
        exact hi
      · simpa [processItems, hi] using ih p k hc hp hcm
    · by_cases hk : i.key = k
      · have hck : rm.comments i.key = none := by rw [hk, hcm]
        simp [processItems, hk, hp, hcm]
      · rcases List.mem_cons.mp hmem with hc | hc
        · exfalso
          apply hk
          rw [← hc]
        · have hknotin : k ∉ i.key :: p := by
            simp only [List.mem_cons]
            rintro (hc2 | hc2)
            · exact hk hc2.symm
            · exact hp hc2
          have hr := ih (i.key :: p) k hc hknotin hcm
          rcases hcmi : rm.comments i.key with _ | cs <;>
            simp [processItems, hi, hcmi, hr.1, hr.2]

lemma stepPage_empty_eq (rm : Remote) (s : ScrapeState)
    (h : (rm.search s.startAt).issues = []) :
    stepPage rm s = ([.fetchPage s.startAt], true,
      { s with total := if s.total.isSome then s.total
                        else (rm.search s.startAt).total }) := by
  simp [stepPage, h]

lemma stepPage_state_nonempty (rm : Remote) (s : ScrapeState)
    (h : (rm.search s.startAt).issues ≠ []) :
    (stepPage rm s).2.2 = ⟨s.startAt + (rm.search s.startAt).issues.length,
      (processItems rm (rm.search s.startAt).issues s.processed).1,
      if s.total.isSome then s.total else (rm.search s.startAt).total⟩ := by
  have hne : ¬ (rm.search s.startAt).issues.isEmpty = true := by
    simpa [List.isEmpty_iff] using h
  simp only [stepPage, if_neg hne]
  split
  · split <;> rfl
  · rfl

lemma stepPage_events_nonempty (rm : Remote) (s : ScrapeState)
    (h : (rm.search s.startAt).issues ≠ []) :
    (stepPage rm s).1 = pageEvents rm s ∨
    (stepPage rm s).1 = pageEvents rm s ++ [Event.politeSleep] := by
  have hne : ¬ (rm.search s.startAt).issues.isEmpty = true := by
    simpa [List.isEmpty_iff] using h
  simp only [stepPage, if_neg hne]
  split
  · split
    · left
      rfl
    · right
      rfl
  · right
    rfl

lemma stepPage_stop_nonempty (rm : Remote) (s : ScrapeState)
    (h : (rm.search s.startAt).issues ≠ []) :
    ((stepPage rm s).2.1 = true ↔
      ∃ t, (if s.total.isSome then s.total else (rm.search s.startAt).total) = some t ∧
        t ≤ s.startAt + (rm.search s.startAt).issues.length) := by
  have hne : ¬ (rm.search s.startAt).issues.isEmpty = true := by
    simpa [List.isEmpty_iff] using h
  simp only [stepPage, if_neg hne]
  split
  · rename_i t heq
    by_cases hts : t ≤ s.startAt + (rm.search s.startAt).issues.length
    · simp [hts, heq]
    · simp [hts, heq]
  · rename_i heq
    simp [heq]

lemma stepPage_mono (rm : Remote) (s : ScrapeState) :
    (∀ x ∈ s.processed, x ∈ (stepPage rm s).2.2.processed) ∧
    s.startAt ≤ (stepPage rm s).2.2.startAt := by
  by_cases h : (rm.search s.startAt).issues = []
  · rw [stepPage_empty_eq rm s h]
    exact ⟨fun x hx => hx, le_refl _⟩
  · rw [stepPage_state_nonempty rm s h]
    exact ⟨fun x hx => processItems_mono rm _ _ x hx, Nat.le_add_right _ _⟩

lemma stepPage_skip (rm : Remote) (s : ScrapeState) (k : String)
    (hk : k ∈ s.processed) :
    (∀ cs, Event.append k cs ∉ (stepPage rm s).1) ∧
    Event.fetchComments k ∉ (stepPage rm s).1 := by
  by_cases h : (rm.search s.startAt).issues = []
  · rw [stepPage_empty_eq rm s h]
    simp
  · have hsk := processItems_skip rm (rm.search s.startAt).issues s.processed k hk
    rcases stepPage_events_nonempty rm s h with he | he <;>
      refine ⟨fun cs => ?_, ?_⟩ <;>
        simp [he, pageEvents, hsk.1, hsk.2]

/-- C2: keys already in the processed set are skipped without a comments
fetch and without an append, for the whole rest of the run; the processed
set never shrinks and the offset never decreases over the run. -/
theorem processed_keys_monotone_skip (rm : Remote) (fuel : Nat) :
    ∀ (s : ScrapeState) (k : String), k ∈ s.processed →
      (∀ x ∈ s.processed, x ∈ (scrapeLoop rm fuel s).2.2.processed) ∧
      s.startAt ≤ (scrapeLoop rm fuel s).2.2.startAt ∧
      (∀ cs, Event.append k cs ∉ (scrapeLoop rm fuel s).1) ∧
      Event.fetchComments k ∉ (scrapeLoop rm fuel s).1 := by
  induction fuel with
  | zero =>
    intro s k hk
    simp [scrapeLoop]
  | succ fuel ih =>
    intro s k hk
    have hm := stepPage_mono rm s
    have hs := stepPage_skip rm s k hk
    by_cases hstop : (stepPage rm s).2.1 = true
    · have heq : scrapeLoop rm (fuel + 1) s =
          ((stepPage rm s).1, true, (stepPage rm s).2.2) := by
        simp [scrapeLoop, hstop]
      rw [heq]
      exact ⟨hm.1, hm.2, hs.1, hs.2⟩
    · have heq : scrapeLoop rm (fuel + 1) s =
          ((stepPage rm s).1 ++ (scrapeLoop rm fuel (stepPage rm s).2.2).1,
            (scrapeLoop rm fuel (stepPage rm s).2.2).2.1,
            (scrapeLoop rm fuel (stepPage rm s).2.2).2.2) := by
        simp [scrapeLoop, hstop]
      have hrec := ih (stepPage rm s).2.2 k (hm.1 k hk)
      rw [heq]
      refine ⟨fun x hx => hrec.1 x (hm.1 x hx), le_trans hm.2 hrec.2.1,
        fun cs => ?_, ?_⟩
      · simp only [List.mem_append]
        rintro (hmem | hmem)
        · exact hs.1 cs hmem
        · exact hrec.2.2.1 cs hmem
      · simp only [List.mem_append]
        rintro (hmem | hmem)
        · exact hs.2 hmem
        · exact hrec.2.2.2 hmem

/-- C2 witness: resuming with processed set `{A}` over the page `[A, B, C]`
leaves `A` untouched (no fetch, no append) and appends exactly `B, C`. -/
theorem processed_keys_monotone_skip_witness :
    ((∀ x ∈ (ScrapeState.mk 0 ["A"] none).processed,
        x ∈ (scrapeLoop remoteABC 5 ⟨0, ["A"], none⟩).2.2.processed) ∧
      (ScrapeState.mk 0 ["A"] none).startAt ≤
        (scrapeLoop remoteABC 5 ⟨0, ["A"], none⟩).2.2.startAt ∧
      (∀ cs, Event.append "A" cs ∉ (scrapeLoop remoteABC 5 ⟨0, ["A"], none⟩).1) ∧
      Event.fetchComments "A" ∉ (scrapeLoop remoteABC 5 ⟨0, ["A"], none⟩).1) ∧
    appendedKeys (scrapeLoop remoteABC 5 ⟨0, ["A"], none⟩).1 = ["B", "C"] :=
  ⟨processed_keys_monotone_skip remoteABC 5 ⟨0, ["A"], none⟩ "A" (by decide),
    by decide⟩

/-- C3: after a non-empty page the offset advances by exactly the number of
returned items, the checkpoint (advanced offset plus updated processed set)
is saved exactly once in the page iteration, and the iteration stops
precisely when the total is known and the advanced offset reaches it. -/
theorem advance_and_checkpoint_once (rm : Remote) (s : ScrapeState)
    (h : (rm.search s.startAt).issues ≠ []) :
    (stepPage rm s).2.2.startAt = s.startAt + (rm.search s.startAt).issues.length ∧
    (stepPage rm s).1.filter isSave =
      [Event.saveCheckpoint (stepPage rm s).2.2.startAt (stepPage rm s).2.2.processed] ∧
    ((stepPage rm s).2.1 = true ↔
      ∃ t, (if s.total.isSome then s.total else (rm.search s.startAt).total) = some t ∧
        t ≤ s.startAt + (rm.search s.startAt).issues.length) := by
  refine ⟨?_, ?_, stepPage_stop_nonempty rm s h⟩
  · rw [stepPage_state_nonempty rm s h]
  · rcases stepPage_events_nonempty rm s h with he | he <;>
      rw [he, stepPage_state_nonempty rm s h] <;>
        simp [pageEvents, List.filter_append, processItems_no_save, isSave]

/-- C3 witness on the concrete `[A, B, C]` page with `total = 3`. -/
theorem advance_and_checkpoint_once_witness :
    ((stepPage remoteABC ⟨0, [], none⟩).2.2.startAt =
        0 + (remoteABC.search 0).issues.length ∧
      (stepPage remoteABC ⟨0, [], none⟩).1.filter isSave =
        [Event.saveCheckpoint (stepPage remoteABC ⟨0, [], none⟩).2.2.startAt
          (stepPage remoteABC ⟨0, [], none⟩).2.2.processed] ∧
      ((stepPage remoteABC ⟨0, [], none⟩).2.1 = true ↔
        ∃ t, (if (none : Option Nat).isSome then none
              else (remoteABC.search 0).total) = some t ∧
          t ≤ 0 + (remoteABC.search 0).issues.length)) ∧
    (stepPage remoteABC ⟨0, [], none⟩).2.1 = true :=
  ⟨advance_and_checkpoint_once remoteABC ⟨0, [], none⟩ (by decide), by decide⟩

/-- C8: an item whose comments fetch fails is still emitted: its record is
appended with an empty comments list, a warning is the only extra effect,
and neither the processed set nor the sequence of appended keys of the page
depends on the comments oracle at all (so the failure aborts nothing). -/
theorem subresource_failure_degrades (rm : Remote) (issues : List Issue)
    (processed : List String) (k : String) (hmem : (⟨k⟩ : Issue) ∈ issues)
    (hp : k ∉ processed) (hfail : rm.comments k = none) :
    Event.append k [] ∈ (processItems rm issues processed).2 ∧
    Event.warn k ∈ (processItems rm issues processed).2 ∧
    (∀ rm2 : Remote,
      (processItems rm2 issues processed).1 = (processItems rm issues processed).1 ∧
      appendedKeys (processItems rm2 issues processed).2 =
        appendedKeys (processItems rm issues processed).2) := by
  have h1 := processItems_failed_append rm issues processed k hmem hp hfail
  exact ⟨h1.1, h1.2, fun rm2 => processItems_comments_irrel rm rm2 issues processed⟩

/-- C8 witness: on page `[A, B, C]` with the comments endpoint failing for
`B`, the record for `B` is still appended with empty comments after a
warning. -/
theorem subresource_failure_degrades_witness :
    (Event.append "B" [] ∈
        (processItems remoteABC [⟨"A"⟩, ⟨"B"⟩, ⟨"C"⟩] []).2 ∧
      Event.warn "B" ∈ (processItems remoteABC [⟨"A"⟩, ⟨"B"⟩, ⟨"C"⟩] []).2 ∧
      (∀ rm2 : Remote,
        (processItems rm2 [⟨"A"⟩, ⟨"B"⟩, ⟨"C"⟩] []).1 =
          (processItems remoteABC [⟨"A"⟩, ⟨"B"⟩, ⟨"C"⟩] []).1 ∧
        appendedKeys (processItems rm2 [⟨"A"⟩, ⟨"B"⟩, ⟨"C"⟩] []).2 =
          appendedKeys (processItems remoteABC [⟨"A"⟩, ⟨"B"⟩, ⟨"C"⟩] []).2)) ∧
    appendedKeys (processItems remoteABC [⟨"A"⟩, ⟨"B"⟩, ⟨"C"⟩] []).2 =
      ["A", "B", "C"] :=
  ⟨subresource_failure_degrades remoteABC [⟨"A"⟩, ⟨"B"⟩, ⟨"C"⟩] [] "B"
      (by decide) (by decide) (by decide),
    by decide⟩

lemma writtenPlus_append (evs evs2 : List Event) :
    ∀ w, writtenPlus w (evs ++ evs2) = writtenPlus (writtenPlus w evs) evs2 := by
  induction evs with
  | nil => intro w; simp [writtenPlus]
  | cons e rest ih => intro w; cases e <;> simp [writtenPlus, ih]

lemma checkpointsCovered_append (evs evs2 : List Event) :
    ∀ w, checkpointsCovered w (evs ++ evs2) =
      (checkpointsCovered w evs && checkpointsCovered (writtenPlus w evs) evs2) := by
  induction evs with
  | nil => intro w; simp [checkpointsCovered, writtenPlus]
  | cons e rest ih =>
    intro w
    cases e <;> simp [checkpointsCovered, writtenPlus, ih, Bool.and_assoc]

lemma processItems_covered_true (rm : Remote) :
    ∀ (issues : List Issue) (processed w : List String),
      checkpointsCovered w (processItems rm issues processed).2 = true := by
  intro issues
  induction issues with
  | nil =>
    intro p w
    simp [processItems, checkpointsCovered]
  | cons i rest ih =>
    intro p w
    by_cases hi : i.key ∈ p
    · simpa [processItems, hi] using ih p w
    · rcases hcm : rm.comments i.key with _ | cs <;>
        simp [processItems, hi, hcm, checkpointsCovered, ih (i.key :: p)]

lemma processItems_covered_written (rm : Remote) :
    ∀ (issues : List Issue) (processed w : List String),
      (∀ x ∈ processed, x ∈ w) →
      ∀ x ∈ (processItems rm issues processed).1,
        x ∈ writtenPlus w (processItems rm issues processed).2 := by
  intro issues
  induction issues with
  | nil =>
    intro p w h x hx
    simp only [processItems, writtenPlus]
    exact h x (by simpa [processItems] using hx)
  | cons i rest ih =>
    intro p w h x hx
    by_cases hi : i.key ∈ p
    · have := ih p w h x (by simpa [processItems, hi] using hx)
      simpa [processItems, hi] using this
    · have hsub : ∀ y ∈ i.key :: p, y ∈ i.key :: w := by
        intro y hy
        rcases List.mem_cons.mp hy with hy | hy
        · rw [hy]
          exact List.mem_cons_self _ _
        · exact List.mem_cons_of_mem _ (h y hy)
      rcases hcm : rm.comments i.key with _ | cs
      · have := ih (i.key :: p) (i.key :: w) hsub x
          (by simpa [processItems, hi, hcm] using hx)
        simpa [processItems, hi, hcm, writtenPlus] using this
      · have := ih (i.key :: p) (i.key :: w) hsub x
          (by simpa [processItems, hi, hcm] using hx)
        simpa [processItems, hi, hcm, writtenPlus] using this

lemma writtenPlus_pageEvents (rm : Remote) (s : ScrapeState) (w : List String) :
    writtenPlus w (pageEvents rm s) =
      writtenPlus w (processItems rm (rm.search s.startAt).issues s.processed).2 := by
  simp [pageEvents, writtenPlus_append, writtenPlus]

lemma writtenPlus_politeSleep (w : List String) (evs : List Event) :
    writtenPlus w (evs ++ [Event.politeSleep]) = writtenPlus w evs := by
  rw [writtenPlus_append]
  rfl

lemma checkpointsCovered_pageEvents (rm : Remote) (s : ScrapeState) (w : List String)
    (hwr : ∀ x ∈ (processItems rm (rm.search s.startAt).issues s.processed).1,
      x ∈ writtenPlus w (processItems rm (rm.search s.startAt).issues s.processed).2) :
    checkpointsCovered w (pageEvents rm s) = true := by
  have h0 : checkpointsCovered w (pageEvents rm s) =
      checkpointsCovered w
        ((processItems rm (rm.search s.startAt).issues s.processed).2 ++
          [Event.saveCheckpoint (s.startAt + (rm.search s.startAt).issues.length)
            (processItems rm (rm.search s.startAt).issues s.processed).1]) := rfl
  rw [h0, checkpointsCovered_append, processItems_covered_true rm]
  simp [checkpointsCovered, List.all_eq_true]
  exact hwr

lemma checkpointsCovered_politeSleep (w : List String) (evs : List Event) :
    checkpointsCovered w (evs ++ [Event.politeSleep]) = checkpointsCovered w evs := by
  rw [checkpointsCovered_append]
  simp [checkpointsCovered]

lemma stepPage_covered (rm : Remote) (s : ScrapeState) (w : List String)
    (h : ∀ x ∈ s.processed, x ∈ w) :
    checkpointsCovered w (stepPage rm s).1 = true ∧
    ∀ x ∈ (stepPage rm s).2.2.processed, x ∈ writtenPlus w (stepPage rm s).1 := by
  by_cases hE : (rm.search s.startAt).issues = []
  · rw [stepPage_empty_eq rm s hE]
    exact ⟨rfl, by simpa [writtenPlus] using h⟩
  · have hwr := processItems_covered_written rm (rm.search s.startAt).issues
      s.processed w h
    rcases stepPage_events_nonempty rm s hE with he | he
    · rw [he, stepPage_state_nonempty rm s hE]
      refine ⟨checkpointsCovered_pageEvents rm s w hwr, ?_⟩
      intro x hx
      rw [writtenPlus_pageEvents]
      exact hwr x hx
    · rw [he, stepPage_state_nonempty rm s hE]
      constructor
      · rw [checkpointsCovered_politeSleep]
        exact checkpointsCovered_pageEvents rm s w hwr
      · intro x hx
        rw [writtenPlus_politeSleep, writtenPlus_pageEvents]
        exact hwr x hx

lemma scrapeLoop_covered (rm : Remote) (fuel : Nat) :
    ∀ (s : ScrapeState) (w : List String), (∀ x ∈ s.processed, x ∈ w) →
      checkpointsCovered w (scrapeLoop rm fuel s).1 = true := by
  induction fuel with
  | zero =>
    intro s w h
    simp [scrapeLoop, checkpointsCovered]
  | succ fuel ih =>
    intro s w h
    have hst := stepPage_covered rm s w h
    by_cases hstop : (stepPage rm s).2.1 = true
    · have heq : scrapeLoop rm (fuel + 1) s =
          ((stepPage rm s).1, true, (stepPage rm s).2.2) := by
        simp [scrapeLoop, hstop]
      rw [heq]
      exact hst.1
    · have heq : scrapeLoop rm (fuel + 1) s =
          ((stepPage rm s).1 ++ (scrapeLoop rm fuel (stepPage rm s).2.2).1,
            (scrapeLoop rm fuel (stepPage rm s).2.2).2.1,
            (scrapeLoop rm fuel (stepPage rm s).2.2).2.2) := by
        simp [scrapeLoop, hstop]
      rw [heq]
      simp only [checkpointsCovered_append]
      rw [hst.1, ih (stepPage rm s).2.2 (writtenPlus w (stepPage rm s).1) hst.2]
      rfl

/-- C10: every checkpoint the run saves only claims keys whose record was
already appended (and flushed) earlier in this run or loaded from the
checkpoint of a prior run: a key enters the in-memory processed set only
after its record is appended, and the page checkpoint is saved after all
the appends of the page. -/
theorem checkpoint_claims_only_written (rm : Remote) (fuel startAt0 : Nat)
    (processed0 : List String) :
    checkpointsCovered processed0 (scrapeProject rm fuel startAt0 processed0).1 = true := by
  have h := scrapeLoop_covered rm fuel ⟨startAt0, processed0, none⟩ processed0
    (fun x hx => hx)
  by_cases hstop : (scrapeLoop rm fuel ⟨startAt0, processed0, none⟩).2.1 = true
  · have heq : (scrapeProject rm fuel startAt0 processed0).1 =
        (scrapeLoop rm fuel ⟨startAt0, processed0, none⟩).1 ++ [.finalizeOut] := by
      simp [scrapeProject, hstop]
    rw [heq, checkpointsCovered_append, h]
    simp [checkpointsCovered]
  · have heq : (scrapeProject rm fuel startAt0 processed0).1 =
        (scrapeLoop rm fuel ⟨startAt0, processed0, none⟩).1 := by
      simp [scrapeProject, hstop]
    rw [heq]
    exact h

lemma processItems_no_finalize (rm : Remote) :
    ∀ (issues : List Issue) (processed : List String),
      Event.finalizeOut ∉ (processItems rm issues processed).2 := by
  intro issues
  induction issues with
  | nil =>
    intro p
    simp [processItems]
  | cons i rest ih =>
    intro p
    by_cases hi : i.key ∈ p
    · simpa [processItems, hi] using ih p
    · rcases hcm : rm.comments i.key with _ | cs <;>
        simp [processItems, hi, hcm, ih (i.key :: p)]

lemma stepPage_no_finalize (rm : Remote) (s : ScrapeState) :
    Event.finalizeOut ∉ (stepPage rm s).1 := by
  by_cases hE : (rm.search s.startAt).issues = []
  · rw [stepPage_empty_eq rm s hE]
    simp
  · rcases stepPage_events_nonempty rm s hE with he | he <;>
      simp [he, pageEvents, processItems_no_finalize]

lemma scrapeLoop_no_finalize (rm : Remote) (fuel : Nat) :
    ∀ s : ScrapeState, Event.finalizeOut ∉ (scrapeLoop rm fuel s).1 := by
  induction fuel with
  | zero =>
    intro s
    simp [scrapeLoop]
  | succ fuel ih =>
    intro s
    by_cases hstop : (stepPage rm s).2.1 = true
    · have heq : scrapeLoop rm (fuel + 1) s =
          ((stepPage rm s).1, true, (stepPage rm s).2.2) := by
        simp [scrapeLoop, hstop]
      rw [heq]
      exact stepPage_no_finalize rm s
    · have heq : scrapeLoop rm (fuel + 1) s =
          ((stepPage rm s).1 ++ (scrapeLoop rm fuel (stepPage rm s).2.2).1,
            (scrapeLoop rm fuel (stepPage rm s).2.2).2.1,
            (scrapeLoop rm fuel (stepPage rm s).2.2).2.2) := by
        simp [scrapeLoop, hstop]
      rw [heq]
      simp only [List.mem_append]
      rintro (hmem | hmem)
      · exact stepPage_no_finalize rm s hmem
      · exact ih (stepPage rm s).2.2 hmem

lemma append_bak_ne (s : String) : s ++ ".bak" ≠ s := by
  intro h
  have h2 := congrArg String.length h
  simp [String.length_append] at h2
  exact absurd h2 (by decide)

lemma append_tmp_ne (s : String) : s ++ ".tmp" ≠ s := by
  intro h
  have h2 := congrArg String.length h
  simp [String.length_append] at h2
  exact absurd h2 (by decide)

lemma append_tmp_ne_bak (s : String) : s ++ ".tmp" ≠ s ++ ".bak" := by
  intro h
  have h2 := congrArg String.data h
  simp [String.data_append] at h2

/-- C9: finalization happens exactly when the loop reaches STOP (never
while the loop is still running or when fuel runs out first), and the
rename sequence never deletes the pre-existing final output: an existing
file at the destination survives at the backup path and the working file
takes the destination; with no pre-existing output the backup path is left
untouched. -/
theorem finalize_only_on_stop_and_preserves (rm : Remote) (fuel startAt0 : Nat)
    (processed0 : List String) (fs : String → Option Nat) (outPath : String) :
    (Event.finalizeOut ∈ (scrapeProject rm fuel startAt0 processed0).1 ↔
      (scrapeLoop rm fuel ⟨startAt0, processed0, none⟩).2.1 = true) ∧
    ((fs outPath).isSome = true →
      finalizeOutput fs outPath (outPath ++ ".bak") = fs outPath ∧
      finalizeOutput fs outPath outPath = fs (outPath ++ ".tmp")) ∧
    (fs outPath = none →
      finalizeOutput fs outPath (outPath ++ ".bak") = fs (outPath ++ ".bak") ∧
      finalizeOutput fs outPath outPath = fs (outPath ++ ".tmp")) := by
  refine ⟨?_, ?_, ?_⟩
  · constructor
    · intro hmem
      by_cases hstop : (scrapeLoop rm fuel ⟨startAt0, processed0, none⟩).2.1 = true
      · exact hstop
      · exfalso
        have heq : (scrapeProject rm fuel startAt0 processed0).1 =
            (scrapeLoop rm fuel ⟨startAt0, processed0, none⟩).1 := by
          simp [scrapeProject, hstop]
        rw [heq] at hmem
        exact scrapeLoop_no_finalize rm fuel _ hmem
    · intro hstop
      have heq : (scrapeProject rm fuel startAt0 processed0).1 =
          (scrapeLoop rm fuel ⟨startAt0, processed0, none⟩).1 ++ [.finalizeOut] := by
        simp [scrapeProject, hstop]
      rw [heq]
      simp
  · intro hex
    have hbt : outPath ++ ".bak" ≠ outPath ++ ".tmp" :=
      fun h => append_tmp_ne_bak outPath h.symm
    constructor
    · simp [finalizeOutput, osReplace, hex, append_bak_ne outPath,
        append_tmp_ne_bak outPath, hbt]
    · simp [finalizeOutput, osReplace, hex, append_tmp_ne outPath,
        append_tmp_ne_bak outPath, hbt]
  · intro hnone
    have hex : (fs outPath).isSome = false := by simp [hnone]
    have hbt : outPath ++ ".bak" ≠ outPath ++ ".tmp" :=
      fun h => append_tmp_ne_bak outPath h.symm
    constructor
    · simp [finalizeOutput, osReplace, hex, append_bak_ne outPath,
        append_tmp_ne_bak outPath, hbt]
    · simp [finalizeOutput, osReplace, hex, append_tmp_ne outPath,
        append_tmp_ne_bak outPath, hbt]

/-- C9 witness: a completed scan finalizes, and with `fsDemo` (existing
final output, file id 1; working file, id 2) the old output survives at the
backup path while the working file takes the destination. -/
theorem finalize_only_on_stop_and_preserves_witness :
    ((Event.finalizeOut ∈ (scrapeProject remoteEmpty 1 0 []).1 ↔
        (scrapeLoop remoteEmpty 1 ⟨0, [], none⟩).2.1 = true) ∧
      ((fsDemo "out.jsonl").isSome = true →
        finalizeOutput fsDemo "out.jsonl" ("out.jsonl" ++ ".bak") = fsDemo "out.jsonl" ∧
        finalizeOutput fsDemo "out.jsonl" "out.jsonl" = fsDemo ("out.jsonl" ++ ".tmp")) ∧
      (fsDemo "out.jsonl" = none →
        finalizeOutput fsDemo "out.jsonl" ("out.jsonl" ++ ".bak") =
          fsDemo ("out.jsonl" ++ ".bak") ∧
        finalizeOutput fsDemo "out.jsonl" "out.jsonl" = fsDemo ("out.jsonl" ++ ".tmp"))) ∧
    Event.finalizeOut ∈ (scrapeProject remoteEmpty 1 0 []).1 :=
  ⟨finalize_only_on_stop_and_preserves remoteEmpty 1 0 [] fsDemo "out.jsonl",
    by decide⟩

end JiraScraper
